import Mathlib

/-!
Verification of the playback-queue and track-resolution core of the
cracktunes repository against its natural-language specification.

The Rust sources are embedded shallowly:

* `std::collections::VecDeque` index operations (used by `src/queue.rs`)
  become total Lean functions on `List`; the panic of `VecDeque::insert`
  on an index strictly greater than the length is modelled as `none`.
* `CrackTrackQueue` (src/queue.rs) becomes a structure holding the inner
  deque contents, the `playing` field and the cached `display` string.
  The queue is generic in the track type, exactly as the Rust code never
  inspects a `ResolvedTrack` except to render it with `to_string` (the
  rendering function is passed explicitly where `build_display` needs it).
* `rand::seq::SliceRandom::shuffle` (called by `CrackTrackQueue::shuffle`)
  is the Fisher-Yates loop `for i in (1..len).rev() { swap(i, rng(0..=i)) }`;
  it is embedded parametrically over the list of random draws.
* The resolution pipeline of `CrackTrackClient` (src/lib.rs) is embedded
  parametrically over the external search / video-info / playlist
  collaborators (`rusty_ytdl`), which are out of scope of the spec.
* `CrackTrackClient::get_queue` (src/lib.rs) is embedded twice: as a
  sequential function, and as a two-step task inside a small interleaving
  semantics that makes its separate lookup-then-insert visible.
* The idle-timeout tick handler `ChannelDurationNotifier::act`
  (src/event_handlers.rs) becomes a pure function of the counter,
  last-activity and timeout values.
-/

namespace CrackTunes

/-- `DEFAULT_PLAYLIST_LIMIT` from src/lib.rs line 47. -/
def DEFAULT_PLAYLIST_LIMIT : Nat := 50

/-- `EMPTY_QUEUE` from src/lib.rs line 48: the unbuilt-display placeholder. -/
def EMPTY_QUEUE : String := "Queue is empty or display not built."

/-! ## VecDeque primitives (std::collections::VecDeque semantics) -/

/-- `VecDeque::get(i)`: `None` when `i` is out of bounds. -/
def vecDequeGet (l : List τ) (i : Nat) : Option τ := l[i]?

/-- `VecDeque::remove(i)`: removes and returns the element at `i`,
returning `None` (and leaving the deque unchanged) when out of bounds. -/
def vecDequeRemove (l : List τ) (i : Nat) : Option τ × List τ :=
  match l[i]? with
  | none => (none, l)
  | some x => (some x, l.eraseIdx i)

/-- `VecDeque::insert(i, t)`: panics when `i` is strictly greater than the
length; the panic is modelled as `none`. -/
def vecDequeInsert (l : List τ) (i : Nat) (t : τ) : Option (List τ) :=
  if i ≤ l.length then some (l.insertIdx i t) else none

/-! ## CrackTrackQueue (src/queue.rs) -/

/-- State of a `CrackTrackQueue` (src/queue.rs lines 11-23): the contents of
the `Arc<Mutex<VecDeque<ResolvedTrack>>>`, the `playing` field and the
cached `display` string. -/
structure CrackTrackQueue (τ : Type) where
  inner : List τ
  playing : Option τ
  display : String
deriving DecidableEq

namespace CrackTrackQueue

/-- `impl Default for CrackTrackQueue` (src/queue.rs lines 26-36). -/
def new (τ : Type) : CrackTrackQueue τ :=
  { inner := [], playing := none, display := EMPTY_QUEUE }

/-- `CrackTrackQueue::push_back` (src/queue.rs lines 155-158). -/
def push_back (s : CrackTrackQueue τ) (t : τ) : CrackTrackQueue τ :=
  { s with inner := s.inner ++ [t] }

/-- `CrackTrackQueue::push_front` (src/queue.rs lines 160-163). -/
def push_front (s : CrackTrackQueue τ) (t : τ) : CrackTrackQueue τ :=
  { s with inner := t :: s.inner }

/-- `CrackTrackQueue::pop_front` (src/queue.rs lines 170-173). -/
def pop_front (s : CrackTrackQueue τ) : Option τ × CrackTrackQueue τ :=
  match s.inner with
  | [] => (none, s)
  | t :: ts => (some t, { s with inner := ts })

/-- `CrackTrackQueue::pop_back` (src/queue.rs lines 165-168). -/
def pop_back (s : CrackTrackQueue τ) : Option τ × CrackTrackQueue τ :=
  match s.inner.getLast? with
  | none => (none, s)
  | some t => (some t, { s with inner := s.inner.dropLast })

/-- `CrackTrackQueue::dequeue` (src/queue.rs lines 93-95) is `pop_front`. -/
def dequeue (s : CrackTrackQueue τ) : Option τ × CrackTrackQueue τ :=
  pop_front s

/-- `CrackTrackQueue::clear` (src/queue.rs lines 98-103), metadata queue part. -/
def clear (s : CrackTrackQueue τ) : CrackTrackQueue τ :=
  { s with inner := [] }

/-- `CrackTrackQueue::get_queue` (src/queue.rs lines 106-108). -/
def get_queue (s : CrackTrackQueue τ) : List τ := s.inner

/-- `CrackTrackQueue::len` (src/queue.rs lines 136-138). -/
def len (s : CrackTrackQueue τ) : Nat := s.inner.length

/-- `CrackTrackQueue::is_empty` (src/queue.rs lines 141-143). -/
def is_empty (s : CrackTrackQueue τ) : Bool := s.inner.isEmpty

/-- `CrackTrackQueue::get` (src/queue.rs lines 146-148). -/
def get (s : CrackTrackQueue τ) (i : Nat) : Option τ :=
  vecDequeGet s.inner i

/-- `CrackTrackQueue::remove` (src/queue.rs lines 151-153). -/
def remove (s : CrackTrackQueue τ) (i : Nat) : Option τ × CrackTrackQueue τ :=
  let r := vecDequeRemove s.inner i
  (r.1, { s with inner := r.2 })

/-- `CrackTrackQueue::insert` (src/queue.rs lines 176-178); `none` is the
panic of the underlying `VecDeque::insert`. -/
def insert (s : CrackTrackQueue τ) (i : Nat) (t : τ) :
    Option (CrackTrackQueue τ) :=
  (vecDequeInsert s.inner i t).map (fun l => { s with inner := l })

/-- `CrackTrackQueue::append` (src/queue.rs lines 186-188). -/
def append (s : CrackTrackQueue τ) (other : List τ) : CrackTrackQueue τ :=
  { s with inner := s.inner ++ other }

/-- `CrackTrackQueue::get_display` (src/queue.rs lines 112-114): returns the
cached string, recomputing nothing. -/
def get_display (s : CrackTrackQueue τ) : String := s.display

/-- `CrackTrackQueue::enqueue` (src/queue.rs lines 67-89), metadata-queue
part: a `push_back`; the songbird transport hand-off is out of scope. -/
def enqueue (s : CrackTrackQueue τ) (t : τ) : CrackTrackQueue τ :=
  s.push_back t

end CrackTrackQueue

/-! ## Claim C3: index-based operations out of range -/

/-- The claim asserts `insert` with an out-of-range index never faults, but
`VecDeque::insert` panics when the index is strictly greater than the
length: on the empty queue, index 1 is out of range (1 >= length 0) and the
insert faults (modelled as `none`). -/
theorem insert_out_of_range_faults :
    vecDequeInsert ([] : List Nat) 1 0 = none := by
  decide

/-- C3 (amended): `get` and `remove` with an index `>=` length return an
absent result and leave the queue unchanged; `insert` never faults for an
index `<=` length, but faults (panics) for an index `>` length. -/
theorem index_ops_out_of_range (s : CrackTrackQueue τ) (i : Nat) (t : τ) :
    (s.len ≤ i → s.get i = none ∧ s.remove i = (none, s))
    ∧ (i ≤ s.len → (s.insert i t).isSome)
    ∧ (s.len < i → s.insert i t = none) := by
  refine ⟨fun h => ?_, fun h => ?_, fun h => ?_⟩
  · have hnone : s.inner[i]? = none := by
      rw [List.getElem?_eq_none_iff]
      exact h
    constructor
    · simp [CrackTrackQueue.get, vecDequeGet, hnone]
    · simp [CrackTrackQueue.remove, vecDequeRemove, hnone]
  · simp [CrackTrackQueue.insert, vecDequeInsert, CrackTrackQueue.len] at h ⊢
    simp [h]
  · simp [CrackTrackQueue.insert, vecDequeInsert, CrackTrackQueue.len] at h ⊢
    omega

/-- Witness for `index_ops_out_of_range` at the concrete queue `[5]` with
index 1 and 2. -/
theorem index_ops_out_of_range_witness :
    let s : CrackTrackQueue Nat :=
      { inner := [5], playing := none, display := EMPTY_QUEUE }
    s.get 1 = none ∧ s.remove 1 = (none, s) ∧ (s.insert 1 7).isSome
      ∧ s.insert 2 7 = none := by
  intro s
  refine ⟨((index_ops_out_of_range s 1 7).1 (by decide)).1,
    ((index_ops_out_of_range s 1 7).1 (by decide)).2,
    (index_ops_out_of_range s 1 7).2.1 (by decide),
    (index_ops_out_of_range s 2 7).2.2 (by decide)⟩

/-! ## Claim C4: FIFO order -/

/-- Push a whole list of tracks with `push_back`, in order. -/
def pushAll (s : CrackTrackQueue τ) (ts : List τ) : CrackTrackQueue τ :=
  ts.foldl CrackTrackQueue.push_back s

/-- Call `dequeue` `n` times, collecting the results in call order. -/
def dequeueN (s : CrackTrackQueue τ) : Nat → List (Option τ) × CrackTrackQueue τ
  | 0 => ([], s)
  | n + 1 =>
    let r := s.dequeue
    let rest := dequeueN r.2 n
    (r.1 :: rest.1, rest.2)

theorem pushAll_inner (ts : List τ) :
    ∀ s : CrackTrackQueue τ, (pushAll s ts).inner = s.inner ++ ts
      ∧ (pushAll s ts).playing = s.playing
      ∧ (pushAll s ts).display = s.display := by
  induction ts with
  | nil => intro s; simp [pushAll]
  | cons t ts ih =>
    intro s
    have h := ih (s.push_back t)
    simpa [pushAll, CrackTrackQueue.push_back] using h

theorem dequeueN_inner (ts : List τ) :
    ∀ s : CrackTrackQueue τ, s.inner = ts →
      dequeueN s ts.length = (ts.map some, { s with inner := [] }) := by
  induction ts with
  | nil => intro s h; simp [dequeueN, ← h]
  | cons t ts ih =>
    intro s h
    have hd : s.dequeue = (some t, { s with inner := ts }) := by
      simp [CrackTrackQueue.dequeue, CrackTrackQueue.pop_front, h]
    simp [dequeueN, hd, ih { s with inner := ts } rfl]

/-- C4: pushing `t1..tn` into the fresh empty queue and dequeueing n times
yields exactly `t1..tn` in order, leaving the queue in its initial empty
state, on which a further `dequeue` returns `none`. -/
theorem fifo_round_trip (ts : List τ) :
    dequeueN (pushAll (CrackTrackQueue.new τ) ts) ts.length
        = (ts.map some, CrackTrackQueue.new τ)
      ∧ (CrackTrackQueue.new τ).dequeue = (none, CrackTrackQueue.new τ) := by
  constructor
  · have hp := pushAll_inner ts (CrackTrackQueue.new τ)
    have h := dequeueN_inner ts (pushAll (CrackTrackQueue.new τ) ts)
      (by simpa [CrackTrackQueue.new] using hp.1)
    rw [h]
    have h2 := hp.2.1
    have h3 := hp.2.2
    simp [CrackTrackQueue.new] at h2 h3 ⊢
    exact ⟨h2, h3⟩
  · rfl

/-! ## Claim C5: shuffle conservation -/

/-- `<[T]>::swap(i, j)` on the contiguous slice: exchange the elements at
`i` and `j` (both reads from the original slice). Out-of-range indices
cannot occur in the shuffle loop; the fallback leaves the list unchanged. -/
def swapL (l : List τ) (i j : Nat) : List τ :=
  match l[i]?, l[j]? with
  | some a, some b => (l.set i b).set j a
  | _, _ => l

/-- The Fisher-Yates loop of `rand::seq::SliceRandom::shuffle`:
`for i in (1..len).rev() { self.swap(i, rng.random_range(0..=i)) }`,
parameterised by the list of random draws (each taken modulo `i + 1`,
as the generator guarantees a value in `0..=i`). -/
def shuffleGo : List τ → Nat → List Nat → List τ
  | l, _, [] => l
  | l, 0, _ => l
  | l, i + 1, d :: ds => shuffleGo (swapL l (i + 1) (d % (i + 2))) i ds

/-- `CrackTrackQueue::shuffle` (src/queue.rs lines 190-197) shuffles the
whole contiguous entry slice in place. -/
def shuffleWith (l : List τ) (draws : List Nat) : List τ :=
  shuffleGo l (l.length - 1) draws

/-- `shuffle` at the queue level: only `inner` is touched. -/
def CrackTrackQueue.shuffle (s : CrackTrackQueue τ) (draws : List Nat) :
    CrackTrackQueue τ :=
  { s with inner := shuffleWith s.inner draws }

theorem set_coe (b : τ) :
    ∀ (l : List τ) (i : Nat),
      ((l.set i b : List τ) : Multiset τ) + {l.getD i b}
        = (l : Multiset τ) + {b} := by
  intro l
  induction l with
  | nil => intro i; rfl
  | cons a t ih =>
    intro i
    cases i with
    | zero =>
      show ((b :: t : List τ) : Multiset τ) + {a}
        = ((a :: t : List τ) : Multiset τ) + {b}
      rw [← Multiset.cons_coe, ← Multiset.cons_coe,
        ← Multiset.singleton_add, ← Multiset.singleton_add]
      abel
    | succ i =>
      show ((a :: t.set i b : List τ) : Multiset τ) + {t.getD i b}
        = ((a :: t : List τ) : Multiset τ) + {b}
      rw [← Multiset.cons_coe, ← Multiset.cons_coe,
        ← Multiset.singleton_add, ← Multiset.singleton_add,
        add_assoc, ih i, add_assoc]

theorem swapL_coe (l : List τ) (i j : Nat) :
    ((swapL l i j : List τ) : Multiset τ) = (l : Multiset τ) := by
  unfold swapL
  cases hi : l[i]? with
  | none => cases l[j]? <;> rfl
  | some a =>
    cases hj : l[j]? with
    | none => rfl
    | some b =>
      have hgi : l.getD i b = a := by
        rw [List.getD_eq_getElem?_getD, hi]; rfl
      have hgj : (l.set i b).getD j a = b := by
        rcases eq_or_ne i j with h | h
        · subst h
          obtain ⟨hlt, _⟩ := List.getElem?_eq_some_iff.mp hi
          rw [List.getD_eq_getElem?_getD, List.getElem?_set_self hlt]; rfl
        · rw [List.getD_eq_getElem?_getD, List.getElem?_set_ne h, hj]; rfl
      have h1 := set_coe b l i
      have h2 := set_coe a (l.set i b) j
      rw [hgi] at h1
      rw [hgj] at h2
      have : (((l.set i b).set j a : List τ) : Multiset τ) + {b}
          = (l : Multiset τ) + {b} := by
        rw [h2, h1]
      exact add_right_cancel this

theorem shuffleGo_coe (draws : List Nat) :
    ∀ (l : List τ) (i : Nat),
      ((shuffleGo l i draws : List τ) : Multiset τ) = (l : Multiset τ) := by
  induction draws with
  | nil => intro l i; cases i <;> rfl
  | cons d ds ih =>
    intro l i
    cases i with
    | zero => rfl
    | succ i =>
      rw [shuffleGo, ih, swapL_coe]

/-- C5: `shuffle` preserves the multiset of tracks exactly (hence also the
multiset of any per-track projection such as the URL), and the length is
unchanged; the `playing` track and the cached display are untouched. -/
theorem shuffle_conservation (s : CrackTrackQueue τ) (draws : List Nat) :
    (((s.shuffle draws).inner : List τ) : Multiset τ) = (s.inner : Multiset τ)
      ∧ (s.shuffle draws).len = s.len
      ∧ (s.shuffle draws).playing = s.playing
      ∧ (s.shuffle draws).display = s.display := by
  have h : ((shuffleWith s.inner draws : List τ) : Multiset τ)
      = (s.inner : Multiset τ) := shuffleGo_coe draws s.inner (s.inner.length - 1)
  refine ⟨h, ?_, rfl, rfl⟩
  have := congrArg Multiset.card h
  simpa [CrackTrackQueue.len, CrackTrackQueue.shuffle] using this

/-! ## Claim C6: render / display staleness -/

/-- `Vec<String>::join("\n")` as used in `build_display`. -/
def joinLines : List String → String
  | [] => ""
  | [s] => s
  | s :: s2 :: rest => s ++ "\n" ++ joinLines (s2 :: rest)

/-- The now-playing line of `build_display` (src/queue.rs lines 119-123). -/
def nowPlayingLine (render : τ → String) : Option τ → String
  | some t => "Now Playing: " ++ render t
  | none => "Nothing is currently playing."

/-- `CrackTrackQueue::build_display` (src/queue.rs lines 118-133): renders
the now-playing line and every queued entry into the cached `display`. -/
def CrackTrackQueue.build_display (render : τ → String)
    (s : CrackTrackQueue τ) : CrackTrackQueue τ :=
  { s with display :=
      nowPlayingLine render s.playing ++ "\n\n"
        ++ joinLines (s.inner.map render) }

/-- The mutating queue operations that are not a render step. An
out-of-range `insert` panics in the source; the executions observed by
`get_display` are the non-panicking ones, so the panic case is modelled as
leaving the state unchanged. -/
inductive QueueMut (τ : Type) where
  | enqueueM (t : τ)
  | pushFrontM (t : τ)
  | dequeueM
  | popBackM
  | clearM
  | removeM (i : Nat)
  | insertM (i : Nat) (t : τ)
  | appendM (ts : List τ)
  | shuffleM (draws : List Nat)

/-- Apply one non-render mutation. -/
def applyMut (s : CrackTrackQueue τ) : QueueMut τ → CrackTrackQueue τ
  | .enqueueM t => s.push_back t
  | .pushFrontM t => s.push_front t
  | .dequeueM => s.dequeue.2
  | .popBackM => s.pop_back.2
  | .clearM => s.clear
  | .removeM i => (s.remove i).2
  | .insertM i t => (s.insert i t).getD s
  | .appendM ts => s.append ts
  | .shuffleM draws => s.shuffle draws

/-- Apply a sequence of non-render mutations in order. -/
def applyMuts (s : CrackTrackQueue τ) (ms : List (QueueMut τ)) :
    CrackTrackQueue τ :=
  ms.foldl applyMut s

/-- `t` occurs as a contiguous substring of `s`. -/
def containsStr (s t : String) : Prop := ∃ p q, s = p ++ t ++ q

theorem applyMut_display (s : CrackTrackQueue τ) (m : QueueMut τ) :
    (applyMut s m).display = s.display := by
  cases m with
  | enqueueM t => rfl
  | pushFrontM t => rfl
  | dequeueM =>
    simp only [applyMut, CrackTrackQueue.dequeue, CrackTrackQueue.pop_front]
    cases s.inner <;> rfl
  | popBackM =>
    simp only [applyMut, CrackTrackQueue.pop_back]
    cases h : s.inner.getLast? <;> rfl
  | clearM => rfl
  | removeM i => rfl
  | insertM i t =>
    simp only [applyMut, CrackTrackQueue.insert, vecDequeInsert]
    by_cases h : i ≤ s.inner.length <;> simp [h]
  | appendM ts => rfl
  | shuffleM draws => rfl

theorem joinLines_contains :
    ∀ (l : List String) (t : String), t ∈ l → containsStr (joinLines l) t := by
  intro l
  induction l with
  | nil => intro t h; cases h
  | cons s rest ih =>
    intro t h
    cases rest with
    | nil =>
      have : t = s := by simpa using h
      subst this
      exact ⟨"", "", by simp [joinLines, String.append_empty, String.empty_append]⟩
    | cons s2 rest2 =>
      rcases List.mem_cons.mp h with h1 | h2
      · subst h1
        refine ⟨"", "\n" ++ joinLines (s2 :: rest2), ?_⟩
        simp [joinLines, String.empty_append, String.append_assoc]
      · obtain ⟨p, q, hpq⟩ := ih t h2
        refine ⟨s ++ "\n" ++ p, q, ?_⟩
        simp [joinLines, hpq, String.append_assoc]

/-- C6: (1) `get_display` on a queue that has seen any sequence of
non-render mutations since creation returns exactly the unbuilt
placeholder `EMPTY_QUEUE` — never a partially built string; (2) after
`build_display`, the display contains the rendering of every currently
queued track; (3) it contains the now-playing line; (4) the built display
is a function of the current entries and now-playing track only, so tracks
dequeued before the render leave no trace. -/
theorem display_contract (render : τ → String) :
    (∀ ms : List (QueueMut τ),
        (applyMuts (CrackTrackQueue.new τ) ms).get_display = EMPTY_QUEUE)
    ∧ (∀ (s : CrackTrackQueue τ) (t : τ), t ∈ s.inner →
        containsStr ((s.build_display render).get_display) (render t))
    ∧ (∀ s : CrackTrackQueue τ,
        containsStr ((s.build_display render).get_display)
          (nowPlayingLine render s.playing))
    ∧ (∀ s1 s2 : CrackTrackQueue τ, s1.inner = s2.inner →
        s1.playing = s2.playing →
        (s1.build_display render).get_display
          = (s2.build_display render).get_display) := by
  refine ⟨?_, ?_, ?_, ?_⟩
  · intro ms
    suffices h : ∀ (ms : List (QueueMut τ)) (s : CrackTrackQueue τ),
        (applyMuts s ms).display = s.display by
      simpa [CrackTrackQueue.get_display, CrackTrackQueue.new] using
        h ms (CrackTrackQueue.new τ)
    intro ms
    induction ms with
    | nil => intro s; rfl
    | cons m rest ih =>
      intro s
      have := ih (applyMut s m)
      simpa [applyMuts, applyMut_display] using this
  · intro s t ht
    obtain ⟨p, q, hpq⟩ :=
      joinLines_contains (s.inner.map render) (render t)
        (List.mem_map_of_mem render ht)
    refine ⟨nowPlayingLine render s.playing ++ "\n\n" ++ p, q, ?_⟩
    simp [CrackTrackQueue.build_display, CrackTrackQueue.get_display, hpq,
      String.append_assoc]
  · intro s
    refine ⟨"", "\n\n" ++ joinLines (s.inner.map render), ?_⟩
    simp [CrackTrackQueue.build_display, CrackTrackQueue.get_display,
      String.empty_append, String.append_assoc]
  · intro s1 s2 h1 h2
    simp [CrackTrackQueue.build_display, CrackTrackQueue.get_display, h1, h2]

/-- Witness for `display_contract` with string tracks rendered by `id`:
an enqueue-then-dequeue sequence leaves the display at the placeholder,
and after a build the display contains the queued track and the
now-playing line. -/
theorem display_contract_witness :
    let s : CrackTrackQueue String :=
      { inner := ["alpha", "beta"], playing := none, display := EMPTY_QUEUE }
    (applyMuts (CrackTrackQueue.new String)
        [QueueMut.enqueueM "alpha", QueueMut.dequeueM]).get_display
        = EMPTY_QUEUE
    ∧ containsStr ((s.build_display id).get_display) "alpha"
    ∧ containsStr ((s.build_display id).get_display)
        (nowPlayingLine id s.playing) := by
  intro s
  refine ⟨(display_contract (τ := String) id).1 _,
    (display_contract (τ := String) id).2.1 s "alpha" (by simp),
    (display_contract (τ := String) id).2.2.1 s⟩

/-! ## Query resolution (src/lib.rs) -/

/-- `crack_types::QueryType`, restricted to the variants handled in
src/lib.rs. `spotifyTracks` carries the keyword strings produced by
`build_query` on each external track descriptor; `newYoutubeDl` carries
the `source_url` of the pre-fetched metadata; `other` stands for the
remaining variants, which hit the wildcard arm. -/
inductive RQuery where
  | videoLink (url : String)
  | keywords (kw : String)
  | playlistLink (url : String)
  | keywordList (kws : List String)
  | spotifyTracks (queries : List String)
  | newYoutubeDl (sourceUrl : String)
  | other
deriving DecidableEq

/-- The error values produced by the resolution pipeline:
`TrackResolveError::NotFound`, `TrackResolveError::UnknownQueryType`, and
errors propagated with the question-mark operator from the external
collaborators. -/
inductive RErr where
  | notFound
  | unknownQueryType
  | external (msg : String)
deriving DecidableEq

/-- A search-result video from the collaborator (only its URL is read by
the code under verification). -/
structure SearchVideo where
  url : String
deriving DecidableEq

/-- A resolved track as produced by src/lib.rs. The track builders live in
the `resolve` module; only the URL the track was built from matters to the
claims under verification. -/
structure RTrack where
  url : String
deriving DecidableEq

/-- The external `rusty_ytdl` collaborators consumed by
`CrackTrackClient` (spec section 6), as oracle functions:
`search_one`, `Video::new_with_options` + `get_info`, and
`Playlist::get` with a limit. A `search_one` hit that is not a video
(channel or playlist result) is modelled as `ok none`, since the code
pattern-matches only `Some(SearchResult::Video(..))`. -/
structure Collab where
  searchOne : String → Except RErr (Option SearchVideo)
  getInfo : String → Except RErr Unit
  fetchPlaylist : String → Nat → Except RErr (List SearchVideo)

/-- `CrackTrackClient::resolve_url` (src/lib.rs lines 394-411). -/
def resolve_url (c : Collab) (url : String) : Except RErr RTrack :=
  match c.getInfo url with
  | .error e => .error e
  | .ok _ => .ok { url := url }

/-- `CrackTrackClient::resolve_track` (src/lib.rs lines 373-391). -/
def resolve_track (c : Collab) : RQuery → Except RErr RTrack
  | .videoLink url => resolve_url c url
  | .keywords kw =>
    match c.searchOne kw with
    | .error e => .error e
    | .ok none => .error .notFound
    | .ok (some video) => resolve_url c video.url
  | _ => .error .unknownQueryType

/-- `CrackTrackClient::resolve_track_many` (src/lib.rs lines 357-367): a
sequential loop that pushes each resolved track and propagates the first
error with the question-mark operator. -/
def resolve_track_many (c : Collab) : List RQuery → Except RErr (List RTrack)
  | [] => .ok []
  | q :: qs =>
    match resolve_track c q with
    | .error e => .error e
    | .ok t =>
      match resolve_track_many c qs with
      | .error e => .error e
      | .ok ts => .ok (t :: ts)

/-- `CrackTrackClient::resolve_playlist_limit` (src/lib.rs lines 523-551):
fetch the playlist entries with the given limit and turn every returned
video into a track; the result is `ok` whenever the fetch is. -/
def resolve_playlist_limit (c : Collab) (url : String) (limit : Nat) :
    Except RErr (List RTrack) :=
  match c.fetchPlaylist url limit with
  | .error e => .error e
  | .ok videos => .ok (videos.map fun v => { url := v.url })

/-- `CrackTrackClient::resolve_playlist` (src/lib.rs lines 514-517). -/
def resolve_playlist (c : Collab) (url : String) : Except RErr (List RTrack) :=
  resolve_playlist_limit c url DEFAULT_PLAYLIST_LIMIT

/-- `QueryType::build_query` for the playlist arm of
`resolve_query_to_tracks`: a `PlaylistLink` yields its URL. -/
def build_query : RQuery → Option String
  | .playlistLink url => some url
  | _ => none

/-- `CrackTrackClient::resolve_query_to_tracks` (src/lib.rs lines 298-351). -/
def resolve_query_to_tracks (c : Collab) : RQuery → Except RErr (List RTrack)
  | .videoLink url => resolve_track_many c [.videoLink url]
  | .keywords kw => resolve_track_many c [.keywords kw]
  | .playlistLink url =>
    resolve_playlist c ((build_query (.playlistLink url)).getD "")
  | .keywordList kws => resolve_track_many c (kws.map RQuery.keywords)
  | .spotifyTracks queries =>
    resolve_track_many c (queries.map RQuery.keywords)
  | .newYoutubeDl sourceUrl =>
    match c.getInfo sourceUrl with
    | .error e => .error e
    | .ok _ => .ok [{ url := sourceUrl }]
  | .other => .error .unknownQueryType

/-! ## Claim C2: playlist cap and the EmptyPlaylist outcome -/

/-- A collaborator whose playlist fetch succeeds with zero entries. -/
def emptyPlaylistCollab : Collab :=
  { searchOne := fun _ => .error .notFound
    getInfo := fun _ => .error .notFound
    fetchPlaylist := fun _ _ => .ok [] }

/-- The claim asserts a zero-entry playlist yields a distinct
`EmptyPlaylist` outcome and that `resolve` never returns an empty success
list otherwise; the code returns the plain empty success `ok []` (no
`EmptyPlaylist` variant exists anywhere in the sources). -/
theorem empty_playlist_is_plain_ok :
    resolve_query_to_tracks emptyPlaylistCollab (.playlistLink "p") = .ok [] :=
  rfl

/-- C2 (amended): `resolve_playlist` queries the collaborator with the
default cap `DEFAULT_PLAYLIST_LIMIT = 50`, so when the collaborator honors
its limit the returned track list has at most 50 entries; a playlist
reported as having zero entries yields the plain empty success `ok []` —
there is no distinct `EmptyPlaylist` outcome, and empty success lists are
possible. -/
theorem resolve_playlist_cap (c : Collab) (url : String)
    (hcap : ∀ u n vs, c.fetchPlaylist u n = .ok vs → vs.length ≤ n) :
    (∀ ts, resolve_playlist c url = .ok ts
        → ts.length ≤ DEFAULT_PLAYLIST_LIMIT)
    ∧ (c.fetchPlaylist url DEFAULT_PLAYLIST_LIMIT = .ok []
        → resolve_playlist c url = .ok []) := by
  constructor
  · intro ts hts
    unfold resolve_playlist resolve_playlist_limit at hts
    cases hfetch : c.fetchPlaylist url DEFAULT_PLAYLIST_LIMIT with
    | error e => rw [hfetch] at hts; cases hts
    | ok videos =>
      rw [hfetch] at hts
      have hlen := hcap url DEFAULT_PLAYLIST_LIMIT videos hfetch
      cases hts
      simpa using hlen
  · intro hfetch
    unfold resolve_playlist resolve_playlist_limit
    rw [hfetch]
    rfl

/-- Witness for `resolve_playlist_cap` at the zero-entry collaborator. -/
theorem resolve_playlist_cap_witness :
    (∀ ts, resolve_playlist emptyPlaylistCollab "p" = .ok ts
        → ts.length ≤ DEFAULT_PLAYLIST_LIMIT)
    ∧ resolve_playlist emptyPlaylistCollab "p" = .ok [] := by
  have h := resolve_playlist_cap emptyPlaylistCollab "p"
    (by
      intro u n vs hv
      have : vs = [] := by
        simpa [emptyPlaylistCollab] using hv.symm
      simp [this])
  exact ⟨h.1, h.2 rfl⟩

/-! ## Claim C7: KeywordList batch resolution -/

/-- C7: a `KeywordList` is resolved by mapping every keyword to a
`Keywords` query and resolving them in input order; if every keyword
resolves, the result is the per-keyword results in input order, and if the
keywords split as `pre ++ k :: post` where all of `pre` resolve and `k`
fails with error `e`, the whole batch fails with `e` and yields no
tracks. -/
theorem keyword_list_batch (c : Collab) (kws : List String)
    (f : String → RTrack) :
    (resolve_query_to_tracks c (.keywordList kws)
        = resolve_track_many c (kws.map RQuery.keywords))
    ∧ ((∀ kw ∈ kws, resolve_track c (.keywords kw) = .ok (f kw))
        → resolve_track_many c (kws.map RQuery.keywords) = .ok (kws.map f))
    ∧ (∀ pre k post e, kws = pre ++ k :: post
        → (∀ kw ∈ pre, ∃ t, resolve_track c (.keywords kw) = .ok t)
        → resolve_track c (.keywords k) = .error e
        → resolve_query_to_tracks c (.keywordList kws) = .error e) := by
  refine ⟨rfl, ?_, ?_⟩
  · intro hall
    induction kws with
    | nil => rfl
    | cons kw rest ih =>
      have hkw := hall kw (by simp)
      have hrest := ih fun k hk => hall k (by simp [hk])
      simp [resolve_track_many, hkw, hrest]
  · intro pre k post e hsplit hpre hk
    subst hsplit
    show resolve_track_many c ((pre ++ k :: post).map RQuery.keywords)
      = .error e
    induction pre with
    | nil => simp [resolve_track_many, hk]
    | cons kw rest ih =>
      obtain ⟨t, ht⟩ := hpre kw (by simp)
      have hrest := ih fun kp hkp => hpre kp (by simp [hkp])
      simp only [List.map_append, List.map_cons] at hrest ⊢
      simp [resolve_track_many, ht, hrest]

/-- Witness for `keyword_list_batch`: a collaborator that resolves every
keyword except the string `"bad"`; the batch containing `"bad"` in second
position fails whole with `notFound`, the all-good batch succeeds in
order. -/
theorem keyword_list_batch_witness :
    let c : Collab :=
      { searchOne := fun kw =>
          if kw = "bad" then .error .notFound
          else .ok (some { url := "u" ++ kw })
        getInfo := fun _ => .ok ()
        fetchPlaylist := fun _ _ => .ok [] }
    resolve_track_many c (["a", "b"].map RQuery.keywords)
        = .ok [{ url := "ua" }, { url := "ub" }]
    ∧ resolve_query_to_tracks c (.keywordList ["a", "bad"])
        = .error .notFound := by
  intro c
  constructor
  · exact (keyword_list_batch c ["a", "b"]
      (fun kw => { url := "u" ++ kw })).2.1
      (by
        intro kw hkw
        simp only [List.mem_cons, List.not_mem_nil, or_false] at hkw
        rcases hkw with rfl | rfl <;> rfl)
  · exact (keyword_list_batch c ["a", "bad"]
      (fun kw => { url := "u" ++ kw })).2.2
      ["a"] "bad" [] .notFound rfl
      (by
        intro kw hkw
        simp only [List.mem_cons, List.not_mem_nil, or_false] at hkw
        subst hkw
        exact ⟨{ url := "ua" }, rfl⟩)
      rfl

/-! ## Claim C1: the Guild Queue Registry get-or-create -/

/-- Pointwise update of a table, the write half of `DashMap::insert`. -/
def upd (f : Nat → Option Nat) (k : Nat) (v : Option Nat) :
    Nat → Option Nat :=
  fun j => if j = k then v else f j

/-- Registry state for the sequential embedding of
`CrackTrackClient::get_queue` (src/lib.rs lines 565-573): the
guild-to-queue table (queue instances named by allocation number, as each
miss allocates a fresh `CrackTrackQueue::new()`) and the allocation
counter. -/
structure RegState where
  table : Nat → Option Nat
  fresh : Nat

/-- Sequential `get_queue`: look the guild up; on a miss, allocate a fresh
queue, insert it, and return it. -/
def get_queue (s : RegState) (g : Nat) : RegState × Nat :=
  match s.table g with
  | some q => (s, q)
  | none =>
    ({ table := upd s.table g (some s.fresh), fresh := s.fresh + 1 }, s.fresh)

/-- Program counter of one task running `get_queue(g)`. The source
performs a `DashMap::get` and, on a miss, a separate `DashMap::insert`;
each map access is individually atomic, so a task is at `start` (before
the get), at `create` (between get and insert), or `done` with the queue
instance it observed. -/
inductive TaskPc where
  | start
  | create
  | done (q : Nat)
deriving DecidableEq

/-- A two-task system racing `get_queue` for the same guild `g`. -/
structure Sys where
  table : Nat → Option Nat
  fresh : Nat
  t1 : TaskPc
  t2 : TaskPc

/-- One atomic step of a single task running `get_queue(g)`. -/
def taskStep (g : Nat) (table : Nat → Option Nat) (fresh : Nat) :
    TaskPc → (Nat → Option Nat) × Nat × TaskPc
  | .start =>
    match table g with
    | some q => (table, fresh, .done q)
    | none => (table, fresh, .create)
  | .create => (upd table g (some fresh), fresh + 1, .done fresh)
  | .done q => (table, fresh, .done q)

/-- Step the chosen task (`false` = task 1, `true` = task 2). -/
def sysStep (g : Nat) (s : Sys) : Bool → Sys
  | false =>
    let r := taskStep g s.table s.fresh s.t1
    { table := r.1, fresh := r.2.1, t1 := r.2.2, t2 := s.t2 }
  | true =>
    let r := taskStep g s.table s.fresh s.t2
    { table := r.1, fresh := r.2.1, t1 := s.t1, t2 := r.2.2 }

/-- Run a schedule of task choices. -/
def runSched (g : Nat) (s : Sys) (sched : List Bool) : Sys :=
  sched.foldl (sysStep g) s

/-- Initial system: empty registry, both tasks about to call
`get_queue(g)`. -/
def sysInit : Sys :=
  { table := fun _ => none, fresh := 0, t1 := .start, t2 := .start }

/-- The claim asserts get-or-create is atomic, with no separate
contains-check followed by insert, every concurrent caller observing one
single instance. The source does a `get` and then a separate `insert`:
under the schedule in which both tasks pass the `get` before either
inserts, the two callers of `get_queue(7)` observe distinct queue
instances (0 and 1), and the second insert has overwritten the first. -/
theorem get_queue_race :
    (runSched 7 sysInit [false, true, false, true]).t1 = .done 0
    ∧ (runSched 7 sysInit [false, true, false, true]).t2 = .done 1
    ∧ (runSched 7 sysInit [false, true, false, true]).table 7 = some 1
    ∧ (0 : Nat) ≠ 1 := by
  refine ⟨rfl, rfl, ?_, by decide⟩
  show upd (upd (fun _ => none) 7 (some 0)) 7 (some 1) 7 = some 1
  simp [upd]

/-- C1 (amended): `get_queue` is get-or-create with a separate
contains-check followed by insert; sequential callers observe a single
stable instance — a second sequential call changes nothing and returns
the same queue — but the check-then-insert is not atomic, so concurrent
first access can yield distinct instances (`get_queue_race`). -/
theorem get_queue_sequential_idempotent (s : RegState) (g : Nat) :
    get_queue (get_queue s g).1 g
      = ((get_queue s g).1, (get_queue s g).2) := by
  cases h : s.table g with
  | some q => simp [get_queue, h]
  | none => simp [get_queue, h, upd]

/-! ## Claim C8: activity bump on track start -/

/-- `ChannelDurationNotifier::update_activity`
(src/event_handlers.rs lines 235-238): store the current tick counter into
`last_activity`. -/
def update_activity (count : Nat) (_lastActivity : Nat) : Nat := count

/-- The activity update inlined in `play_next_from_queue`
(src/main.rs lines 111-118) and `play_url` (src/main.rs lines 300-307):
load `last_activity` and store `last_activity + 1`. -/
def play_next_activity_update (_count : Nat) (lastActivity : Nat) : Nat :=
  lastActivity + 1

/-- C8: starting a track through `play_next_from_queue` at tick 5 with
`last_activity = 0` stores 1, not the current tick 5 that the
`bump_activity` semantics (and `update_activity`, the event-handler
implementation of it) require. -/
theorem activity_update_divergence :
    play_next_activity_update 5 0 = 1
    ∧ update_activity 5 0 = 5
    ∧ play_next_activity_update 5 0 ≠ update_activity 5 0 := by
  refine ⟨rfl, rfl, by decide⟩

/-! ## Claim C9: idle-timeout tick -/

/-- Outcome of one periodic tick of `ChannelDurationNotifier::act`
(src/event_handlers.rs lines 243-284): the incremented counter, whether
the guild is force-disconnected, and whether the handler returns
`Some(Event::Cancel)` to cancel itself. -/
structure TickOutcome where
  newCount : Nat
  disconnect : Bool
  cancel : Bool
deriving DecidableEq

/-- `ChannelDurationNotifier::act` as a pure function of the counter,
the idle timeout and the last-activity value: increment the counter, and
when the timeout is non-zero and `current_time.saturating_sub
(last_activity) >= idle_timeout`, leave the channel and cancel the
handler. -/
def channelDurationAct (idleTimeout count lastActivity : Nat) : TickOutcome :=
  let currentTime := count + 1
  if idleTimeout > 0 ∧ currentTime - lastActivity ≥ idleTimeout then
    { newCount := currentTime, disconnect := true, cancel := true }
  else
    { newCount := currentTime, disconnect := false, cancel := false }

/-- C9: a periodic tick disconnects the guild if and only if the timeout is
non-zero and the elapsed idle ticks (with saturating subtraction) reach
it, and it cancels the handler exactly when it disconnects; in particular
a zero timeout never disconnects, and the counter always increments. -/
theorem idle_tick_contract (idleTimeout count lastActivity : Nat) :
    ((channelDurationAct idleTimeout count lastActivity).disconnect = true
      ↔ (idleTimeout ≠ 0
          ∧ idleTimeout ≤ (count + 1) - lastActivity))
    ∧ (channelDurationAct idleTimeout count lastActivity).cancel
        = (channelDurationAct idleTimeout count lastActivity).disconnect
    ∧ (channelDurationAct idleTimeout count lastActivity).newCount = count + 1
    ∧ (idleTimeout = 0
        → (channelDurationAct idleTimeout count lastActivity).disconnect
            = false) := by
  refine ⟨?_, ?_, ?_, ?_⟩ <;>
    · unfold channelDurationAct
      by_cases h : idleTimeout > 0 ∧ count + 1 - lastActivity ≥ idleTimeout <;>
        simp [h] <;> omega

/-! ## Claim C10: clone sharing

`#[derive(Clone)]` on `CrackTrackQueue` clones the
`Arc<Mutex<VecDeque<..>>>` — a second reference to the same shared
storage — while `playing` and `display` are cloned by value. This is made
explicit with a heap of deque cells: a handle names its cell and owns its
`playing` and `display` copies. -/

/-- The shared heap: deque contents per `Arc` cell. -/
def QStore (τ : Type) := Nat → List τ

/-- A `CrackTrackQueue` handle: the `Arc` pointer as a cell name, plus the
by-value `playing` and `display` fields. -/
structure QHandle (τ : Type) where
  cell : Nat
  playing : Option τ
  display : String

/-- `Clone::clone` on `CrackTrackQueue`: the `Arc` is cloned (same cell),
`playing` and `display` are cloned by value. -/
def cloneQ (h : QHandle τ) : QHandle τ :=
  { cell := h.cell, playing := h.playing, display := h.display }

/-- Write a cell of the heap. -/
def storeSet (s : QStore τ) (c : Nat) (l : List τ) : QStore τ :=
  fun j => if j = c then l else s j

/-- Apply one of the claim's mutations through a handle: the operation
locks the shared cell and rewrites it; `none` models the panic of an
out-of-range insert. -/
def applyMutH (s : QStore τ) (h : QHandle τ) :
    QueueMut τ → Option (QStore τ)
  | .enqueueM t => some (storeSet s h.cell (s h.cell ++ [t]))
  | .pushFrontM t => some (storeSet s h.cell (t :: s h.cell))
  | .dequeueM => some (storeSet s h.cell (s h.cell).tail)
  | .popBackM => some (storeSet s h.cell (s h.cell).dropLast)
  | .clearM => some (storeSet s h.cell [])
  | .removeM i => some (storeSet s h.cell (vecDequeRemove (s h.cell) i).2)
  | .insertM i t =>
    (vecDequeInsert (s h.cell) i t).map (storeSet s h.cell)
  | .appendM ts => some (storeSet s h.cell (s h.cell ++ ts))
  | .shuffleM draws => some (storeSet s h.cell (shuffleWith (s h.cell) draws))

/-- `len` through a handle reads the shared cell. -/
def lenH (s : QStore τ) (h : QHandle τ) : Nat := (s h.cell).length

/-- `get` through a handle reads the shared cell. -/
def getH (s : QStore τ) (h : QHandle τ) (i : Nat) : Option τ :=
  vecDequeGet (s h.cell) i

/-- `get_queue` through a handle clones the shared cell contents. -/
def getQueueH (s : QStore τ) (h : QHandle τ) : List τ := s h.cell

/-- `get_display` through a handle reads the handle's own copy. -/
def getDisplayH (h : QHandle τ) : String := h.display

/-- `build_display` through a handle: reads the shared cell and the
handle's `playing`, and writes only the handle's own `display` copy; the
heap is untouched. -/
def buildDisplayH (render : τ → String) (s : QStore τ) (h : QHandle τ) :
    QStore τ × QHandle τ :=
  (s, { h with display :=
    nowPlayingLine render h.playing ++ "\n\n"
      ++ joinLines ((s h.cell).map render) })

/-- C10: `clone` yields a handle over the same cell with equal by-value
fields; every mutation applied through one handle is observed through any
handle on the same cell (`len`, `get`, `get_queue` agree); and
`build_display` through one handle changes neither the shared heap nor
the display read through the other handle. -/
theorem clone_sharing (render : τ → String) (s : QStore τ)
    (h1 h2 : QHandle τ) (hcell : h2.cell = h1.cell) :
    cloneQ h1 = h1
    ∧ (∀ (m : QueueMut τ) (s2 : QStore τ), applyMutH s h1 m = some s2 →
        lenH s2 h2 = lenH s2 h1
        ∧ getQueueH s2 h2 = getQueueH s2 h1
        ∧ ∀ i, getH s2 h2 i = getH s2 h1 i)
    ∧ (buildDisplayH render s h1).1 = s
    ∧ getDisplayH h2 = h2.display := by
  refine ⟨rfl, ?_, rfl, rfl⟩
  intro m s2 _
  exact ⟨by simp [lenH, hcell], by simp [getQueueH, hcell],
    fun i => by simp [getH, hcell]⟩

/-- Witness for `clone_sharing`: a clone of a concrete handle over cell 0
observes an enqueue performed through the original, while
`build_display` on the original leaves the clone's display at the
placeholder. -/
theorem clone_sharing_witness :
    let s : QStore Nat := fun _ => []
    let h1 : QHandle Nat := { cell := 0, playing := none, display := EMPTY_QUEUE }
    let h2 := cloneQ h1
    ∀ s2, applyMutH s h1 (.enqueueM 42) = some s2 →
      lenH s2 h2 = lenH s2 h1
      ∧ (buildDisplayH (fun n => toString n) s h1).1 = s
      ∧ getDisplayH h2 = EMPTY_QUEUE := by
  intro s h1 h2 s2 happ
  have h := clone_sharing (fun n => toString n) s h1 h2 rfl
  exact ⟨(h.2.1 (.enqueueM 42) s2 happ).1, h.2.2.1, h.2.2.2⟩

end CrackTunes
